import Mathlib

/-!
Verification of `dropbox_download.py` (hoerldavid/dropbox-sharedlink-download).

The development shallowly embeds the program's core:
* `db_content_hash` (Dropbox two-level chunked SHA-256 content hash),
* `get_file_list_recursive` (worklist traversal of the remote tree with
  pagination, manifest caching),
* `download_file_list` (planning pass with hash-based skipping, submission
  to a worker pool, result collection),
* the `__main__` orchestration tail.

File contents and digests are byte lists (`List Nat`, each byte < 256);
the local filesystem and the manifest-cache filesystem are association
lists from path strings to contents.
-/

namespace DropboxDL

/-! ## SHA-256 (executable, `Nat`-based)

A direct embedding of the SHA-256 algorithm used by `hashlib.sha256`:
words are `Nat`s reduced mod 2^32, messages are byte lists. -/

def w32 : Nat := 4294967296

/-- Rotate a 32-bit word right. -/
def rotr (k n : Nat) : Nat :=
  ((n >>> k) ||| (n <<< (32 - k))) % w32

/-- Shift a 32-bit word right. -/
def shr (k n : Nat) : Nat := n >>> k

def bsig0 (x : Nat) : Nat := (rotr 2 x) ^^^ (rotr 13 x) ^^^ (rotr 22 x)
def bsig1 (x : Nat) : Nat := (rotr 6 x) ^^^ (rotr 11 x) ^^^ (rotr 25 x)
def ssig0 (x : Nat) : Nat := (rotr 7 x) ^^^ (rotr 18 x) ^^^ (shr 3 x)
def ssig1 (x : Nat) : Nat := (rotr 17 x) ^^^ (rotr 19 x) ^^^ (shr 10 x)

def chF (x y z : Nat) : Nat := (x &&& y) ^^^ ((x ^^^ (w32 - 1)) &&& z)
def majF (x y z : Nat) : Nat := (x &&& y) ^^^ (x &&& z) ^^^ (y &&& z)

/-- The 64 SHA-256 round constants (decimal). -/
def K256 : List Nat :=
  [1116352408, 1899447441, 3049323471, 3921009573, 961987163, 1508970993,
   2453635748, 2870763221, 3624381080, 310598401, 607225278, 1426881987,
   1925078388, 2162078206, 2614888103, 3248222580, 3835390401, 4022224774,
   264347078, 604807628, 770255983, 1249150122, 1555081692, 1996064986,
   2554220882, 2821834349, 2952996808, 3210313671, 3336571891, 3584528711,
   113926993, 338241895, 666307205, 773529912, 1294757372, 1396182291,
   1695183700, 1986661051, 2177026350, 2456956037, 2730485921, 2820302411,
   3259730800, 3345764771, 3516065817, 3600352804, 4094571909, 275423344,
   430227734, 506948616, 659060556, 883997877, 958139571, 1322822218,
   1537002063, 1747873779, 1955562222, 2024104815, 2227730452, 2361852424,
   2428436474, 2756734187, 3204031479, 3329325298]

/-- SHA-256 initial hash state (decimal). -/
def H256 : List Nat :=
  [1779033703, 3144134277, 1013904242, 2773480762,
   1359893119, 2600822924, 528734635, 1541459225]

/-- Big-endian 8-byte encoding of a number (the length field of the padding). -/
def be64 (n : Nat) : List Nat :=
  [(n >>> 56) % 256, (n >>> 48) % 256, (n >>> 40) % 256, (n >>> 32) % 256,
   (n >>> 24) % 256, (n >>> 16) % 256, (n >>> 8) % 256, n % 256]

/-- SHA-256 padding: append `0x80`, zeros to 56 mod 64, then the bit length. -/
def sha256Pad (msg : List Nat) : List Nat :=
  msg ++ 0x80 :: List.replicate ((64 + 56 - ((msg.length + 1) % 64)) % 64) 0
      ++ be64 (8 * msg.length)

/-- Big-endian grouping of bytes into 32-bit words. -/
def toWords : List Nat → List Nat
  | b0 :: b1 :: b2 :: b3 :: rest =>
      (b0 <<< 24 ||| b1 <<< 16 ||| b2 <<< 8 ||| b3) :: toWords rest
  | _ => []

/-- Extend the 16 block words with 48 scheduled words. -/
def extendWords : Nat → List Nat → List Nat
  | 0, ws => ws
  | n + 1, ws =>
      let ln := ws.length
      let nw := (ssig1 (ws.getD (ln - 2) 0) + ws.getD (ln - 7) 0
                 + ssig0 (ws.getD (ln - 15) 0) + ws.getD (ln - 16) 0) % w32
      extendWords n (ws ++ [nw])

/-- One compression round per `(k, w)` pair. State is `[a,b,c,d,e,f,g,h]`. -/
def sha256Rounds : List (Nat × Nat) → List Nat → List Nat
  | [], st => st
  | (k, w) :: kws, st =>
      match st with
      | [a, b, c, d, e, f, g, h] =>
          let t1 := (h + bsig1 e + chF e f g + k + w) % w32
          let t2 := (bsig0 a + majF a b c) % w32
          sha256Rounds kws [(t1 + t2) % w32, a, b, c, (d + t1) % w32, e, f, g]
      | st => st

/-- Compress one 16-word block into the running state. -/
def sha256Compress (st block : List Nat) : List Nat :=
  let ws := extendWords 48 block
  let st' := sha256Rounds (K256.zip ws) st
  (st.zip st').map (fun p => (p.1 + p.2) % w32)

/-- Fold the compression over consecutive 16-word blocks. -/
def sha256Blocks : List Nat → List Nat → List Nat
  | st, w0 :: w1 :: w2 :: w3 :: w4 :: w5 :: w6 :: w7 :: w8 :: w9 :: w10 :: w11 :: w12 :: w13 :: w14 :: w15 :: rest =>
      sha256Blocks (sha256Compress st [w0, w1, w2, w3, w4, w5, w6, w7, w8, w9, w10, w11, w12, w13, w14, w15]) rest
  | st, _ => st

/-- Big-endian 4-byte decomposition of a 32-bit word. -/
def wordBytes (n : Nat) : List Nat :=
  [(n >>> 24) % 256, (n >>> 16) % 256, (n >>> 8) % 256, n % 256]

/-- Embeds `hashlib.sha256(msg).digest()`: the 32-byte SHA-256 digest of a byte list. -/
def sha256 (msg : List Nat) : List Nat :=
  (sha256Blocks H256 (toWords (sha256Pad msg))).flatMap wordBytes

def hexChar (n : Nat) : Char := "0123456789abcdef".toList.getD n '0'

/-- Lowercase hex encoding of a byte list (`hexdigest` of a digest). -/
def bytesToHex (bs : List Nat) : String :=
  String.mk (bs.flatMap (fun b => [hexChar (b / 16), hexChar (b % 16)]))

/-- Embeds `hashlib.sha256(msg).hexdigest()`. -/
def sha256Hex (msg : List Nat) : String := bytesToHex (sha256 msg)

/-! ## `db_content_hash` (lines 14-24)

The Dropbox content hash of a local file: the file is read in 4 MiB chunks,
the 32-byte SHA-256 digest of each chunk is appended to `chunk_hashes`, and
the result is the hex digest of the SHA-256 of that concatenation.  A file
is represented by its byte contents.  The read loop is embedded with a fuel
argument; `fuel = data.length` always suffices because each iteration of
the non-empty case consumes at least one byte (`CHUNK_SIZE ≥ 1`). -/

def CHUNK_SIZE : Nat := 4 * 1024 * 1024

/-- The `while (chunk := fd.read(CHUNK_SIZE))` loop: accumulate the SHA-256
digest of each successive chunk until the remaining data is empty. -/
def dbChunkLoop : Nat → List Nat → List Nat → List Nat
  | _, chunk_hashes, [] => chunk_hashes
  | 0, chunk_hashes, _ => chunk_hashes
  | fuel + 1, chunk_hashes, data =>
      dbChunkLoop fuel (chunk_hashes ++ sha256 (data.take CHUNK_SIZE)) (data.drop CHUNK_SIZE)

/-- Embeds `db_content_hash(file)`: hex digest of the SHA-256 of the concatenated
per-chunk digests. -/
def db_content_hash (data : List Nat) : String :=
  sha256Hex (dbChunkLoop data.length [] data)

/-- Spec-side definition ("read the file in fixed-size chunks (4 MiB)"):
the decomposition of a byte list into successive `CHUNK_SIZE`-byte chunks,
empty for an empty list.  Fuel-based like `dbChunkLoop`. -/
def chunksOf : Nat → List Nat → List (List Nat)
  | _, [] => []
  | 0, _ => []
  | fuel + 1, data => data.take CHUNK_SIZE :: chunksOf fuel (data.drop CHUNK_SIZE)

/-! ## Manifest entries, local filesystem, download tasks -/

/-- One `(path, entry.name, entry.content_hash, entry.size)` tuple of the
file list built by `get_file_list_recursive` (line 65). -/
structure ManifestEntry where
  path : String
  name : String
  content_hash : String
  size : Nat
deriving DecidableEq, Repr

/-- Python `s.strip('/')`: remove every leading and trailing `'/'`. -/
def stripSlashes (s : String) : String :=
  String.mk (((s.toList.dropWhile (· == '/')).reverse.dropWhile (· == '/')).reverse)

/-- The `pathlib` join of two path segments: joining the empty relative path is the identity
(`Path('') == Path('.')`, which disappears on join). -/
def joinPath (a b : String) : String := if b = "" then a else a ++ "/" ++ b

/-- Embeds `target_file.parent`: `Path(target_dir) / Path(path.strip('/'))`
(line 83, the directory that line 87 creates when missing). -/
def targetParent (target_dir : String) (e : ManifestEntry) : String :=
  joinPath target_dir (stripSlashes e.path)

/-- Embeds `target_file` of line 83:
`Path(target_dir) / Path(path.strip('/')) / Path(name)`. -/
def targetFile (target_dir : String) (e : ManifestEntry) : String :=
  joinPath (targetParent target_dir e) e.name

/-- The local filesystem seen by `download_file_list`: files (path ↦ byte
contents) and the set of existing directories. -/
structure LocalFS where
  files : List (String × List Nat)
  dirs : List String
deriving DecidableEq, Repr

/-- The argument triple of `pool.submit(dbx.sharing_get_shared_link_file_to_file,
str(target_file), link_root, '/'.join([path, name]))` (line 95). -/
structure DownloadTask where
  target : String
  link : String
  remote_path : String
deriving DecidableEq, Repr

def mkTask (link_root target_dir : String) (e : ManifestEntry) : DownloadTask :=
  ⟨targetFile target_dir e, link_root, e.path ++ "/" ++ e.name⟩

/-- The skip condition of lines 90-92: the target file exists and its
content hash equals the entry's remote hash. -/
def upToDate (files : List (String × List Nat)) (target_dir : String) (e : ManifestEntry) : Bool :=
  match files.lookup (targetFile target_dir e) with
  | some content => db_content_hash content == e.content_hash
  | none => false

/-- Lines 86-87: create the entry's parent directory when it does not
exist (`os.makedirs`); file contents are untouched. -/
def bumpDirs (target_dir : String) (e : ManifestEntry) (fs : LocalFS) : LocalFS :=
  { fs with dirs :=
      if targetParent target_dir e ∈ fs.dirs then fs.dirs
      else targetParent target_dir e :: fs.dirs }

/-- The planning loop of lines 81-95: for each entry, create the parent
directory if missing, skip the entry when `upToDate`, and otherwise append
a download task to `futures`. -/
def planLoop (link_root target_dir : String) :
    LocalFS → List ManifestEntry → List DownloadTask → LocalFS × List DownloadTask
  | fs, [], futures => (fs, futures)
  | fs, e :: rest, futures =>
      match (bumpDirs target_dir e fs).files.lookup (targetFile target_dir e) with
      | some content =>
          if db_content_hash content == e.content_hash then
            planLoop link_root target_dir (bumpDirs target_dir e fs) rest futures
          else
            planLoop link_root target_dir (bumpDirs target_dir e fs) rest
              (futures ++ [mkTask link_root target_dir e])
      | none =>
          planLoop link_root target_dir (bumpDirs target_dir e fs) rest
            (futures ++ [mkTask link_root target_dir e])

/-- Execution of the submitted tasks by the worker pool: every task runs;
a successful transfer writes the downloaded bytes at the task's target, a
failed transfer writes nothing.  `outcome` abstracts the transfer client. -/
def applyOutcomes (outcome : DownloadTask → Except String (List Nat)) :
    LocalFS → List DownloadTask → LocalFS
  | fs, [] => fs
  | fs, t :: ts =>
      match outcome t with
      | .ok c => applyOutcomes outcome { fs with files := (t.target, c) :: fs.files } ts
      | .error _ => applyOutcomes outcome fs ts

/-- The collection loop of lines 99-100: `for future in futures:
future.result()` — block on each future in submission order and re-raise
the first failure. -/
def collectResults (outcome : DownloadTask → Except String (List Nat)) :
    List DownloadTask → Except String Unit
  | [] => .ok ()
  | t :: ts =>
      match outcome t with
      | .error e => .error e
      | .ok _ => collectResults outcome ts

/-- Embeds `download_file_list` (lines 74-100): plan, execute all submitted tasks,
collect results.  Returns the final filesystem, the submitted tasks and the
result of collection. -/
def download_file_list (outcome : DownloadTask → Except String (List Nat))
    (link_root target_dir : String) (fs : LocalFS)
    (files_to_download : List ManifestEntry) :
    LocalFS × List DownloadTask × Except String Unit :=
  let (fs1, futures) := planLoop link_root target_dir fs files_to_download []
  (applyOutcomes outcome fs1 futures, futures, collectResults outcome futures)

/-! ## Main-thread event trace of `download_file_list`

For the temporal claim about dispatch order we record the order of the
main thread's actions: per entry, the local planning work (existence
check, directory creation, hash comparison) and then — inside the same
loop iteration (line 95) — the `pool.submit` call when the entry is not
up to date; after the loop, the `future.result()` joins in submission
order. -/

inductive SchedEvent where
  | planned (i : Nat)
  | submitted (i : Nat)
  | collected (i : Nat)
deriving DecidableEq, Repr

def isPlannedEv : SchedEvent → Bool
  | .planned _ => true
  | _ => false

/-- Events of the planning loop, entries numbered from `i`; also returns
the indices of the submitted entries in submission order. -/
def planEvents (target_dir : String) (fs : LocalFS) :
    Nat → List ManifestEntry → List SchedEvent × List Nat
  | _, [] => ([], [])
  | i, e :: rest =>
      let (evs, subs) := planEvents target_dir fs (i + 1) rest
      if upToDate fs.files target_dir e then
        (SchedEvent.planned i :: evs, subs)
      else
        (SchedEvent.planned i :: SchedEvent.submitted i :: evs, i :: subs)

/-- The full main-thread trace: the interleaved planning/submission events
of lines 81-95, then one `collected` event per future (lines 99-100). -/
def schedTrace (target_dir : String) (fs : LocalFS) (entries : List ManifestEntry) :
    List SchedEvent :=
  let (evs, subs) := planEvents target_dir fs 0 entries
  evs ++ subs.map SchedEvent.collected

/-- The property claimed of the scheduler: every planning event precedes
every dispatch, i.e. after any `submitted` event no `planned` event occurs. -/
def noPlannedAfterSubmitted : List SchedEvent → Bool
  | [] => true
  | SchedEvent.submitted _ :: rest => rest.all (fun ev => !isPlannedEv ev)
  | _ :: rest => noPlannedAfterSubmitted rest

/-- Event `a` occurs strictly before event `b` in the trace `tr`. -/
def eventBefore (a b : SchedEvent) (tr : List SchedEvent) : Prop :=
  ∃ l1 l2 l3, tr = l1 ++ a :: (l2 ++ b :: l3)

/-! ## Remote tree, pagination and `get_file_list_recursive` (lines 27-72)

A remote folder listing is a list of pages; each page request either
returns its entries or fails (the listing API raising).  Folder entries
carry their own page list, file entries carry name, content hash and size. -/

inductive RNode where
  | folder (name : String) (pages : List (Except String (List RNode)))
  | file (name : String) (content_hash : String) (size : Nat)

/-- A worklist item: the folder's path together with its listing pages. -/
abbrev WItem := String × List (Except String (List RNode))

mutual
/-- Size measures used as traversal fuel. -/
def nodeSize : RNode → Nat
  | .file _ _ _ => 1
  | .folder _ pgs => 1 + pagesSize pgs
def pagesSize : List (Except String (List RNode)) → Nat
  | [] => 0
  | .error _ :: ps => pagesSize ps
  | .ok es :: ps => entsSize es + pagesSize ps
def entsSize : List RNode → Nat
  | [] => 0
  | e :: es => nodeSize e + entsSize es
end

def wlSize : List WItem → Nat
  | [] => 0
  | it :: wl => pagesSize it.2 + wlSize wl

/-- The `while res.has_more` loop of lines 55-57: keep requesting
continuation pages and extending `entries`; any page failure raises. -/
def pagesExtendLoop (entries : List RNode) :
    List (Except String (List RNode)) → Except String (List RNode)
  | [] => .ok entries
  | res :: more =>
      match res with
      | .error e => .error e
      | .ok es => pagesExtendLoop (entries ++ es) more

/-- Lines 51-57: the first `files_list_folder` request followed by the
continuation loop.  An empty page list models a folder whose single page
is empty. -/
def listFolderAllPages : List (Except String (List RNode)) → Except String (List RNode)
  | [] => .ok []
  | first :: more =>
      match first with
      | .error e => .error e
      | .ok es => pagesExtendLoop es more

/-- The entries of all pages, ignoring failed pages (only used to state
size bookkeeping; `listFolderAllPages` never skips a failed page). -/
def flattenOkPages : List (Except String (List RNode)) → List RNode
  | [] => []
  | .error _ :: ps => flattenOkPages ps
  | .ok es :: ps => es ++ flattenOkPages ps

def pagesAllOk : List (Except String (List RNode)) → Bool
  | [] => true
  | .error _ :: _ => false
  | .ok _ :: ps => pagesAllOk ps

/-- Line 61-62: the folder entries, pushed onto the worklist under their
full child path `'/'.join([path, entry.name])`. -/
def childFolders (path : String) (entries : List RNode) : List WItem :=
  entries.filterMap fun
    | .folder n pgs => some (path ++ "/" ++ n, pgs)
    | .file _ _ _ => none

/-- Line 64-65: the file entries, appended to `all_files` under the
current path. -/
def childFiles (path : String) (entries : List RNode) : List ManifestEntry :=
  entries.filterMap fun
    | .file n h s => some ⟨path, n, h, s⟩
    | .folder _ _ => none

/-- The worklist loop of lines 45-65, fuel-based.  One iteration pops the
last worklist item (`path_worklist.pop()`), lists all its pages, pushes
the child folders and appends the file entries; `calls` counts the listing
requests made.  `fuel = wlSize wl + wl.length` always suffices (each
iteration strictly decreases that measure), so the fuel-exhaustion branch
is unreachable and returns an error marker. -/
def traverseGo : Nat → List WItem → List ManifestEntry → List String → Nat →
    Except String (List ManifestEntry × List String × Nat)
  | _, [], all_files, visited, calls => .ok (all_files, visited, calls)
  | 0, _ :: _, _, _, _ => .error "out of fuel"
  | fuel + 1, x :: xs, all_files, visited, calls =>
      let wl := x :: xs
      let it := wl.getLast (List.cons_ne_nil x xs)
      match listFolderAllPages it.2 with
      | .error e => .error e
      | .ok entries =>
          traverseGo fuel (wl.dropLast ++ childFolders it.1 entries)
            (all_files ++ childFiles it.1 entries)
            (visited ++ [it.1]) (calls + it.2.length)

/-- Lines 41-65: the traversal starting from the worklist `['']` on the
shared-link root's pages. -/
def traverseFiles (rootPages : List (Except String (List RNode))) :
    Except String (List ManifestEntry × List String × Nat) :=
  traverseGo (wlSize [("", rootPages)] + 1) [("", rootPages)] [] [] 0

mutual
/-- Spec-side enumeration: every file of a node, tagged with its parent
path. -/
def nodeFiles (p : String) : RNode → List ManifestEntry
  | .file n h s => [⟨p, n, h, s⟩]
  | .folder n pgs => pagesFiles (p ++ "/" ++ n) pgs
def pagesFiles (p : String) : List (Except String (List RNode)) → List ManifestEntry
  | [] => []
  | .error _ :: ps => pagesFiles p ps
  | .ok es :: ps => entsFiles p es ++ pagesFiles p ps
def entsFiles (p : String) : List RNode → List ManifestEntry
  | [] => []
  | e :: es => nodeFiles p e ++ entsFiles p es
end

mutual
/-- Spec-side enumeration: the full path of every folder of a node. -/
def nodeFolderPaths (p : String) : RNode → List String
  | .file _ _ _ => []
  | .folder n pgs => (p ++ "/" ++ n) :: pagesFolderPaths (p ++ "/" ++ n) pgs
def pagesFolderPaths (p : String) : List (Except String (List RNode)) → List String
  | [] => []
  | .error _ :: ps => pagesFolderPaths p ps
  | .ok es :: ps => entsFolderPaths p es ++ pagesFolderPaths p ps
def entsFolderPaths (p : String) : List RNode → List String
  | [] => []
  | e :: es => nodeFolderPaths p e ++ entsFolderPaths p es
end

mutual
/-- Holds (`true`) iff no page request anywhere in the (sub)tree fails. -/
def nodeErrFree : RNode → Bool
  | .file _ _ _ => true
  | .folder _ pgs => pagesErrFree pgs
def pagesErrFree : List (Except String (List RNode)) → Bool
  | [] => true
  | .error _ :: _ => false
  | .ok es :: ps => entsErrFree es && pagesErrFree ps
def entsErrFree : List RNode → Bool
  | [] => true
  | e :: es => nodeErrFree e && entsErrFree es
end

def wlErrFree : List WItem → Bool
  | [] => true
  | it :: wl => pagesErrFree it.2 && wlErrFree wl

/-! ## Manifest cache and the full `get_file_list_recursive` -/

/-- Errors raised by Python code in the embedded fragments. -/
inductive PyError where
  | typeError (msg : String)
  | listingError (msg : String)
deriving DecidableEq, Repr

/-- The persisted manifest: `{'shared_link': ..., 'file_list': ...}`
(line 68). -/
structure CacheFile where
  shared_link : String
  file_list : List ManifestEntry
deriving DecidableEq, Repr

/-- The filesystem holding manifest cache files (path ↦ parsed contents). -/
abbrev CacheFS := List (String × CacheFile)

/-- Embeds `get_file_list_recursive(link_root, api_token, file_list_location)`
(lines 27-72).  `os.path.exists(file_list_location)` raises `TypeError`
when the location is `None` (line 31); a present cache file is loaded and
returned with no listing calls (lines 32-35); otherwise the tree is
traversed and, on success, the manifest is persisted to the cache path
(lines 67-70).  Returns the cache filesystem after the call together with
the file list and the number of listing requests, or the raised error. -/
def get_file_list_recursive (cfs : CacheFS) (link_root : String) :
    Option String → List (Except String (List RNode)) →
    CacheFS × Except PyError (List ManifestEntry × Nat)
  | none, _ =>
      (cfs, .error (.typeError
        "stat: path should be string, bytes, os.PathLike or integer, not NoneType"))
  | some loc, rootPages =>
      match cfs.lookup loc with
      | some cf => (cfs, .ok (cf.file_list, 0))
      | none =>
          match traverseFiles rootPages with
          | .error e => (cfs, .error (.listingError e))
          | .ok (all_files, _, calls) =>
              ((loc, ⟨link_root, all_files⟩) :: cfs, .ok (all_files, calls))

/-! ## Orchestrator tail (lines 130-138) -/

/-- Embeds `functools.reduce(operator.add, xs)`: raises `TypeError` on an empty
sequence (no initial value is passed at line 136). -/
def pyReduceAdd : List Nat → Except PyError Nat
  | [] => .error (.typeError "reduce() of empty iterable with no initial value")
  | x :: xs => .ok (xs.foldl (· + ·) x)

/-- Lines 132-134: the optional `--max_num_files` cap. -/
def cappedFiles (all_files : List ManifestEntry) : Option Nat → List ManifestEntry
  | some n => all_files.take n
  | none => all_files

/-- Lines 130-138 after the listing: apply the cap, compute the total byte
count for the progress message (line 136), then — only if that did not
raise — hand the file list to `download_file_list`.  `.ok` carries the
scheduler's input. -/
def mainAfterListing (all_files : List ManifestEntry) (max_num_files : Option Nat) :
    Except PyError (List ManifestEntry × Nat) :=
  let files_to_download := cappedFiles all_files max_num_files
  match pyReduceAdd (files_to_download.map ManifestEntry.size) with
  | .error e => .error e
  | .ok total => .ok (files_to_download, total)

/-! # Theorems -/

/-! ## Content hash (C1) -/

theorem dbChunkLoop_eq (fuel : Nat) :
    ∀ acc data, dbChunkLoop fuel acc data
      = acc ++ ((chunksOf fuel data).map sha256).flatten := by
  induction fuel with
  | zero =>
      intro acc data
      cases data <;> simp [dbChunkLoop, chunksOf]
  | succ n ih =>
      intro acc data
      cases data with
      | nil => simp [dbChunkLoop, chunksOf]
      | cons d ds =>
          simp only [dbChunkLoop, chunksOf, List.map_cons, List.flatten_cons, ih,
            List.append_assoc]

/-- C1: `db_content_hash` returns the lowercase hex SHA-256 digest of the
concatenation, in read order, of the SHA-256 digests of the file's 4 MiB
chunks; for an empty file the chunk sequence is empty and the result is
the SHA-256 hex digest of the empty byte string, the fixed constant
`e3b0...b855`. -/
theorem C1_content_hash_chunked (data : List Nat) :
    db_content_hash data
        = sha256Hex (((chunksOf data.length data).map sha256).flatten)
      ∧ db_content_hash []
        = "e3b0c44298fc1c149afbf4c8996fb92427ae41e4649b934ca495991b7852b855"
      ∧ sha256Hex []
        = "e3b0c44298fc1c149afbf4c8996fb92427ae41e4649b934ca495991b7852b855" := by
  refine ⟨?_, by decide, by decide⟩
  unfold db_content_hash
  rw [dbChunkLoop_eq]
  rfl

/-! ## Planning phase (C2) -/

theorem bumpDirs_files (target_dir : String) (e : ManifestEntry) (fs : LocalFS) :
    (bumpDirs target_dir e fs).files = fs.files := rfl

theorem planLoop_files (link_root target_dir : String) (entries : List ManifestEntry) :
    ∀ fs futures, ((planLoop link_root target_dir fs entries futures).1).files = fs.files := by
  induction entries with
  | nil => intro fs futures; rfl
  | cons e rest ih =>
      intro fs futures
      simp only [planLoop]
      split
      · split <;> (rw [ih]; rfl)
      · rw [ih]; rfl

theorem planLoop_tasks (link_root target_dir : String) (entries : List ManifestEntry) :
    ∀ fs futures,
      (planLoop link_root target_dir fs entries futures).2
        = futures ++ (entries.filter
            (fun e => !upToDate fs.files target_dir e)).map (mkTask link_root target_dir) := by
  induction entries with
  | nil => intro fs futures; simp [planLoop]
  | cons e rest ih =>
      intro fs futures
      have hfiles : (bumpDirs target_dir e fs).files = fs.files := rfl
      simp only [planLoop, List.filter_cons]
      split
      next content heq =>
          rw [hfiles] at heq
          have hu : upToDate fs.files target_dir e
              = (db_content_hash content == e.content_hash) := by
            unfold upToDate; rw [heq]
          split
          next hc =>
              rw [hc] at hu
              rw [ih]
              simp only [hfiles]
              simp [hu]
          next hc =>
              have hcf : (db_content_hash content == e.content_hash) = false := by
                simpa using hc
              rw [hcf] at hu
              rw [ih]
              simp only [hfiles]
              simp [hu, List.append_assoc]
      next heq =>
          rw [hfiles] at heq
          have hu : upToDate fs.files target_dir e = false := by
            unfold upToDate; rw [heq]
          rw [ih]
          simp only [hfiles]
          simp [hu, List.append_assoc]

theorem download_file_list_futures (outcome : DownloadTask → Except String (List Nat))
    (link_root target_dir : String) (fs : LocalFS) (entries : List ManifestEntry) :
    (download_file_list outcome link_root target_dir fs entries).2.1
      = (planLoop link_root target_dir fs entries []).2 := by
  unfold download_file_list
  rcases planLoop link_root target_dir fs entries [] with ⟨fs1, futures⟩
  rfl

/-- C2: the scheduler enqueues no task for an entry whose target file
exists with matching content hash and exactly one task for every other
entry; in the spec's scenario (`a.txt` present and hashing to H1), only
the task for `b.txt` is submitted. -/
theorem C2_skip_up_to_date (outcome : DownloadTask → Except String (List Nat))
    (link_root target_dir : String) (fs : LocalFS) (entries : List ManifestEntry) :
    (download_file_list outcome link_root target_dir fs entries).2.1
        = (entries.filter (fun e => !upToDate fs.files target_dir e)).map
            (mkTask link_root target_dir)
      ∧ (download_file_list outcome "L" "t" ⟨[("t/a.txt", [])], []⟩
            [⟨"", "a.txt", db_content_hash [], 10⟩, ⟨"/sub", "b.txt", "H2", 20⟩]).2.1
          = [⟨"t/sub/b.txt", "L", "/sub/b.txt"⟩] := by
  constructor
  · rw [download_file_list_futures, planLoop_tasks]
    rfl
  · rw [download_file_list_futures, planLoop_tasks]
    decide

/-! ## Cache behavior (C6, C9) -/

/-- C6 (code evaluation): called with `file_list_location = None`, the
function raises `TypeError` inside `os.path.exists` before any listing,
instead of traversing and returning the manifest. -/
theorem C6_none_cache_path_raises (cfs : CacheFS) (link_root : String)
    (rootPages : List (Except String (List RNode))) :
    get_file_list_recursive cfs link_root none rootPages
      = (cfs, .error (.typeError
          "stat: path should be string, bytes, os.PathLike or integer, not NoneType")) := rfl

/-- C9: after a call that returned a manifest (persisting it when it was
freshly built), calling again with the same cache path returns the same
entry list — hence the same set of entries — with zero listing calls. -/
theorem C9_cache_round_trip (cfs : CacheFS) (link_root loc : String)
    (rootPages : List (Except String (List RNode))) (cfs' : CacheFS)
    (files : List ManifestEntry) (calls : Nat)
    (h : get_file_list_recursive cfs link_root (some loc) rootPages
          = (cfs', .ok (files, calls))) :
    get_file_list_recursive cfs' link_root (some loc) rootPages
      = (cfs', .ok (files, 0)) := by
  simp only [get_file_list_recursive] at h ⊢
  cases hl : cfs.lookup loc with
  | some cf =>
      rw [hl] at h
      injection h with h1 h2
      injection h2 with h2
      injection h2 with h2a h2b
      subst h1
      subst h2a
      rw [hl]
  | none =>
      rw [hl] at h
      cases ht : traverseFiles rootPages with
      | error e => rw [ht] at h; simp at h
      | ok res =>
          obtain ⟨all, vis, calls2⟩ := res
          rw [ht] at h
          injection h with h1 h2
          injection h2 with h2
          injection h2 with h2a h2b
          subst h1
          subst h2a
          simp [List.lookup]

/-- C9 witness. -/
theorem C9_witness :
    get_file_list_recursive [("cache.json", ⟨"L", [⟨"", "a.txt", "H1", 10⟩]⟩)] "L"
        (some "cache.json") [.ok [.file "a.txt" "H1" 10]]
      = ([("cache.json", ⟨"L", [⟨"", "a.txt", "H1", 10⟩]⟩)],
         .ok ([⟨"", "a.txt", "H1", 10⟩], 0)) :=
  C9_cache_round_trip [] "L" "cache.json" [.ok [.file "a.txt" "H1" 10]]
    [("cache.json", ⟨"L", [⟨"", "a.txt", "H1", 10⟩]⟩)] [⟨"", "a.txt", "H1", 10⟩] 1 (by rfl)

/-! ## Scheduler event ordering (C5) -/

theorem schedTrace_eq (target_dir : String) (fs : LocalFS) (entries : List ManifestEntry) :
    schedTrace target_dir fs entries
      = (planEvents target_dir fs 0 entries).1
        ++ ((planEvents target_dir fs 0 entries).2).map SchedEvent.collected := by
  unfold schedTrace
  rcases planEvents target_dir fs 0 entries with ⟨evs, subs⟩
  rfl

theorem planEvents_submitted_adjacent (target_dir : String) (fs : LocalFS)
    (entries : List ManifestEntry) :
    ∀ k i, SchedEvent.submitted i ∈ (planEvents target_dir fs k entries).1 →
      ∃ l1 l2, (planEvents target_dir fs k entries).1
        = l1 ++ SchedEvent.planned i :: SchedEvent.submitted i :: l2 := by
  induction entries with
  | nil => intro k i h; simp [planEvents] at h
  | cons e rest ih =>
      intro k i h
      have ih' := ih (k + 1) i
      rcases hpe : planEvents target_dir fs (k + 1) rest with ⟨evs, subs⟩
      rw [hpe] at ih'
      simp only [planEvents, hpe] at h ⊢
      cases hu : upToDate fs.files target_dir e with
      | true =>
          simp only [hu, if_true] at h ⊢
          simp only [List.mem_cons] at h
          rcases h with h | h
          · cases h
          · obtain ⟨l1, l2, heq⟩ := ih' h
            have heq' : evs = l1 ++ SchedEvent.planned i :: SchedEvent.submitted i :: l2 := heq
            exact ⟨SchedEvent.planned k :: l1, l2, by simp [heq']⟩
      | false =>
          simp only [hu, Bool.false_eq_true, if_false] at h ⊢
          simp only [List.mem_cons] at h
          rcases h with h | h | h
          · cases h
          · cases h
            exact ⟨[], evs, rfl⟩
          · obtain ⟨l1, l2, heq⟩ := ih' h
            have heq' : evs = l1 ++ SchedEvent.planned i :: SchedEvent.submitted i :: l2 := heq
            exact ⟨SchedEvent.planned k :: SchedEvent.submitted k :: l1, l2, by simp [heq']⟩

theorem planEvents_no_collected (target_dir : String) (fs : LocalFS)
    (entries : List ManifestEntry) :
    ∀ k j, SchedEvent.collected j ∉ (planEvents target_dir fs k entries).1 := by
  induction entries with
  | nil => intro k j h; simp [planEvents] at h
  | cons e rest ih =>
      intro k j h
      have ih' := ih (k + 1) j
      rcases hpe : planEvents target_dir fs (k + 1) rest with ⟨evs, subs⟩
      rw [hpe] at ih'
      simp only [planEvents, hpe] at h
      cases hu : upToDate fs.files target_dir e with
      | true =>
          simp only [hu, if_true, List.mem_cons] at h
          rcases h with h | h
          · cases h
          · exact ih' h
      | false =>
          simp only [hu, Bool.false_eq_true, if_false, List.mem_cons] at h
          rcases h with h | h | h
          · cases h
          · cases h
          · exact ih' h

/-- C5 counterexample: with an empty target directory and two entries,
the trace of the scheduler contains `submitted 0` before `planned 1`, so
it is false that no task is dispatched to the worker pool until the
planning pass over the whole manifest has completed: line 95 submits each
task inside the planning loop itself. -/
theorem C5_counterexample :
    noPlannedAfterSubmitted (schedTrace "t" ⟨[], []⟩
        [⟨"", "a.txt", "H1", 10⟩, ⟨"", "b.txt", "H2", 20⟩]) = false := by decide

/-- C5 amended: dispatch is interleaved with planning — each entry's own
planning work (existence check, directory creation, hash comparison)
happens before that entry's task is submitted to the pool, and every
submission happens before any result is collected; but a task of an
earlier entry is dispatched before later entries are planned. -/
theorem C5_amended_dispatch_interleaved (target_dir : String) (fs : LocalFS)
    (entries : List ManifestEntry) :
    (∀ i, SchedEvent.submitted i ∈ schedTrace target_dir fs entries →
        eventBefore (SchedEvent.planned i) (SchedEvent.submitted i)
          (schedTrace target_dir fs entries))
  ∧ (∀ i j, SchedEvent.submitted i ∈ schedTrace target_dir fs entries →
        SchedEvent.collected j ∈ schedTrace target_dir fs entries →
        eventBefore (SchedEvent.submitted i) (SchedEvent.collected j)
          (schedTrace target_dir fs entries)) := by
  have hadj := planEvents_submitted_adjacent target_dir fs entries 0
  have hnc := planEvents_no_collected target_dir fs entries 0
  rw [schedTrace_eq]
  constructor
  · intro i hi
    have hi' : SchedEvent.submitted i ∈ (planEvents target_dir fs 0 entries).1 := by
      rcases List.mem_append.mp hi with h | h
      · exact h
      · exfalso
        obtain ⟨x, hx, hxe⟩ := List.mem_map.mp h
        cases hxe
    obtain ⟨l1, l2, heq⟩ := hadj i hi'
    exact ⟨l1, [], l2 ++ ((planEvents target_dir fs 0 entries).2).map SchedEvent.collected,
      by simp [heq]⟩
  · intro i j hi hj
    have hi' : SchedEvent.submitted i ∈ (planEvents target_dir fs 0 entries).1 := by
      rcases List.mem_append.mp hi with h | h
      · exact h
      · exfalso
        obtain ⟨x, hx, hxe⟩ := List.mem_map.mp h
        cases hxe
    have hj' : SchedEvent.collected j
        ∈ ((planEvents target_dir fs 0 entries).2).map SchedEvent.collected := by
      rcases List.mem_append.mp hj with h | h
      · exact absurd h (hnc j)
      · exact h
    obtain ⟨s, t, hst⟩ := List.append_of_mem hi'
    obtain ⟨u, v, huv⟩ := List.append_of_mem hj'
    refine ⟨s, t ++ u, v, ?_⟩
    rw [hst, huv]
    simp

/-- C5 amended witness. -/
theorem C5_amended_witness :
    eventBefore (SchedEvent.planned 0) (SchedEvent.submitted 0)
      (schedTrace "t" ⟨[], []⟩ [⟨"", "a.txt", "H1", 10⟩, ⟨"", "b.txt", "H2", 20⟩]) :=
  (C5_amended_dispatch_interleaved "t" ⟨[], []⟩
    [⟨"", "a.txt", "H1", 10⟩, ⟨"", "b.txt", "H2", 20⟩]).1 0 (by decide)

/-! ## Task execution (C4, C8) -/

theorem applyOutcomes_lookup_not_mem (outcome : DownloadTask → Except String (List Nat))
    (tasks : List DownloadTask) :
    ∀ (fs : LocalFS) (q : String), (∀ t ∈ tasks, t.target ≠ q) →
      ((applyOutcomes outcome fs tasks).files.lookup q) = fs.files.lookup q := by
  induction tasks with
  | nil => intro fs q _; rfl
  | cons t ts ih =>
      intro fs q h
      simp only [applyOutcomes]
      split
      next c heq =>
          rw [ih _ _ (fun u hu => h u (List.mem_cons_of_mem _ hu))]
          have hne : (q == t.target) = false :=
            beq_eq_false_iff_ne.mpr (Ne.symm (h t (List.mem_cons_self t ts)))
          simp [List.lookup_cons, hne]
      next e heq =>
          exact ih _ _ (fun u hu => h u (List.mem_cons_of_mem _ hu))

theorem applyOutcomes_lookup_self (outcome : DownloadTask → Except String (List Nat))
    (tasks : List DownloadTask) :
    ∀ (fs : LocalFS) (t : DownloadTask) (c : List Nat),
      (tasks.map DownloadTask.target).Nodup → t ∈ tasks → outcome t = .ok c →
      ((applyOutcomes outcome fs tasks).files.lookup t.target) = some c := by
  induction tasks with
  | nil => intro fs t c _ hmem _; cases hmem
  | cons u ts ih =>
      intro fs t c hnd hmem ho
      simp only [List.map_cons, List.nodup_cons] at hnd
      obtain ⟨hnotin, hnd'⟩ := hnd
      rcases List.mem_cons.mp hmem with rfl | hmem'
      · simp only [applyOutcomes, ho]
        rw [applyOutcomes_lookup_not_mem outcome ts _ _
          (by
            intro v hv hvq
            exact hnotin (by rw [← hvq]; exact List.mem_map_of_mem DownloadTask.target hv))]
        simp [List.lookup_cons]
      · simp only [applyOutcomes]
        split
        next c' heq => exact ih _ _ _ hnd' hmem' ho
        next e heq => exact ih _ _ _ hnd' hmem' ho

/-- C4: with every transfer of the first run writing content whose
content hash equals the entry's remote hash (and distinct target paths,
the spec's §3 invariant), a second run of the scheduler over the same
manifest and target enqueues no download task at all. -/
theorem C4_second_run_idempotent (outcome : DownloadTask → Except String (List Nat))
    (link_root target_dir : String) (fs : LocalFS) (entries : List ManifestEntry)
    (hnodup : (entries.map (targetFile target_dir)).Nodup)
    (hmatch : ∀ e ∈ entries, upToDate fs.files target_dir e = false →
        ∃ c, outcome (mkTask link_root target_dir e) = .ok c
          ∧ db_content_hash c = e.content_hash) :
    (download_file_list outcome link_root target_dir
        (download_file_list outcome link_root target_dir fs entries).1 entries).2.1 = [] := by
  have hfs1 : (download_file_list outcome link_root target_dir fs entries).1
      = applyOutcomes outcome (planLoop link_root target_dir fs entries []).1
          (planLoop link_root target_dir fs entries []).2 := by
    unfold download_file_list
    rcases planLoop link_root target_dir fs entries [] with ⟨a, b⟩
    rfl
  have htasks := planLoop_tasks link_root target_dir entries fs []
  have hfsP := planLoop_files link_root target_dir entries fs []
  have htargets : ((planLoop link_root target_dir fs entries []).2).map DownloadTask.target
      = (entries.filter (fun e => !upToDate fs.files target_dir e)).map (targetFile target_dir) := by
    rw [htasks]
    simp only [List.nil_append, List.map_map]
    rfl
  have hndtasks : (((planLoop link_root target_dir fs entries []).2).map DownloadTask.target).Nodup := by
    rw [htargets]
    exact List.Nodup.sublist (List.Sublist.map _ (List.filter_sublist entries)) hnodup
  have hall : ∀ e ∈ entries,
      upToDate ((download_file_list outcome link_root target_dir fs entries).1).files
        target_dir e = true := by
    intro e he
    cases hu : upToDate fs.files target_dir e with
    | true =>
        have hnm : targetFile target_dir e
            ∉ ((planLoop link_root target_dir fs entries []).2).map DownloadTask.target := by
          rw [htargets]
          intro hmem
          obtain ⟨e', he'mem, he'eq⟩ := List.mem_map.mp hmem
          have he'filter := List.of_mem_filter he'mem
          have he'entries := List.mem_of_mem_filter he'mem
          have : e' = e := List.inj_on_of_nodup_map hnodup he'entries he he'eq
          subst this
          rw [hu] at he'filter
          simp at he'filter
        have hlook : ((download_file_list outcome link_root target_dir fs entries).1).files.lookup
            (targetFile target_dir e) = fs.files.lookup (targetFile target_dir e) := by
          rw [hfs1, applyOutcomes_lookup_not_mem outcome _ _ _
            (by
              intro v hv hvq
              exact hnm (by rw [← hvq]; exact List.mem_map_of_mem DownloadTask.target hv)), hfsP]
        unfold upToDate at hu ⊢
        rw [hlook]
        exact hu
    | false =>
        obtain ⟨c, hoc, hhash⟩ := hmatch e he hu
        have hmemtask : mkTask link_root target_dir e
            ∈ (planLoop link_root target_dir fs entries []).2 := by
          rw [htasks]
          simp only [List.nil_append]
          exact List.mem_map_of_mem _ (List.mem_filter.mpr ⟨he, by simp [hu]⟩)
        have hlook : ((download_file_list outcome link_root target_dir fs entries).1).files.lookup
            (targetFile target_dir e) = some c := by
          rw [hfs1]
          exact applyOutcomes_lookup_self outcome _ _ _ _ hndtasks hmemtask hoc
        unfold upToDate
        rw [hlook]
        simp [hhash]
  rw [download_file_list_futures, planLoop_tasks]
  have hfilter : entries.filter
      (fun e => !upToDate ((download_file_list outcome link_root target_dir fs entries).1).files
        target_dir e) = [] :=
    List.filter_eq_nil_iff.mpr (fun e he => by simp [hall e he])
  rw [hfilter]
  rfl

theorem C4_witness :
    (download_file_list (fun _ => .ok [104]) "L" "t"
        (download_file_list (fun _ => .ok [104]) "L" "t" ⟨[], []⟩
          [⟨"", "a.txt", db_content_hash [104], 1⟩]).1
        [⟨"", "a.txt", db_content_hash [104], 1⟩]).2.1 = [] :=
  C4_second_run_idempotent (fun _ => .ok [104]) "L" "t" ⟨[], []⟩
    [⟨"", "a.txt", db_content_hash [104], 1⟩] (by decide)
    (by
      intro e he hu
      rw [List.mem_singleton] at he
      subst he
      exact ⟨[104], rfl, rfl⟩)

/-- C8: result collection joins the futures in submission order and
returns the first failure; execution applies every successful task's
write regardless of failures among other tasks (no cancellation). -/
theorem C8_first_failure_and_isolation (outcome : DownloadTask → Except String (List Nat)) :
    (∀ (ts1 : List DownloadTask) (t : DownloadTask) (ts2 : List DownloadTask) (e : String),
        (∀ u ∈ ts1, ∃ c, outcome u = .ok c) → outcome t = .error e →
        collectResults outcome (ts1 ++ t :: ts2) = .error e)
  ∧ (∀ (fs : LocalFS) (tasks : List DownloadTask) (t : DownloadTask) (c : List Nat),
        (tasks.map DownloadTask.target).Nodup → t ∈ tasks → outcome t = .ok c →
        ((applyOutcomes outcome fs tasks).files.lookup t.target) = some c) := by
  constructor
  · intro ts1
    induction ts1 with
    | nil =>
        intro t ts2 e _ ho
        simp only [List.nil_append, collectResults, ho]
    | cons u ts ih =>
        intro t ts2 e hok ho
        obtain ⟨c, hc⟩ := hok u (List.mem_cons_self u ts)
        simp only [List.cons_append, collectResults, hc]
        exact ih t ts2 e (fun v hv => hok v (List.mem_cons_of_mem _ hv)) ho
  · intro fs tasks t c h1 h2 h3
    exact applyOutcomes_lookup_self outcome tasks fs t c h1 h2 h3

theorem C8_witness :
    collectResults
        (fun t => if t.target == "t/ok" then (.ok [1] : Except String (List Nat))
                  else .error "network error")
        ([⟨"t/ok", "L", "/ok"⟩] ++ ⟨"t/bad", "L", "/bad"⟩ :: [])
      = .error "network error"
    ∧ ((applyOutcomes
        (fun t => if t.target == "t/ok" then (.ok [1] : Except String (List Nat))
                  else .error "network error")
        ⟨[], []⟩ [⟨"t/ok", "L", "/ok"⟩, ⟨"t/bad", "L", "/bad"⟩]).files.lookup "t/ok")
      = some [1] := by
  constructor
  · exact (C8_first_failure_and_isolation _).1 [⟨"t/ok", "L", "/ok"⟩] ⟨"t/bad", "L", "/bad"⟩
      [] "network error"
      (by
        intro u hu
        rw [List.mem_singleton] at hu
        subst hu
        exact ⟨[1], rfl⟩)
      rfl
  · exact (C8_first_failure_and_isolation _).2 ⟨[], []⟩
      [⟨"t/ok", "L", "/ok"⟩, ⟨"t/bad", "L", "/bad"⟩] ⟨"t/ok", "L", "/ok"⟩ [1]
      (by decide) (by decide) rfl

/-! ## Remote traversal lemmas (C3, C7) -/

theorem entsSize_append (a b : List RNode) :
    entsSize (a ++ b) = entsSize a + entsSize b := by
  induction a with
  | nil => simp [entsSize]
  | cons e as ih => simp [entsSize, ih]; omega

theorem wlSize_append (a b : List WItem) :
    wlSize (a ++ b) = wlSize a + wlSize b := by
  induction a with
  | nil => simp [wlSize]
  | cons it as ih => simp [wlSize, ih]; omega

theorem wlErrFree_append (a b : List WItem) :
    wlErrFree (a ++ b) = (wlErrFree a && wlErrFree b) := by
  induction a with
  | nil => simp [wlErrFree]
  | cons it as ih => simp [wlErrFree, ih, Bool.and_assoc]

theorem entsErrFree_append (a b : List RNode) :
    entsErrFree (a ++ b) = (entsErrFree a && entsErrFree b) := by
  induction a with
  | nil => simp [entsErrFree]
  | cons e as ih => simp [entsErrFree, ih, Bool.and_assoc]

theorem entsFiles_append (p : String) (a b : List RNode) :
    entsFiles p (a ++ b) = entsFiles p a ++ entsFiles p b := by
  induction a with
  | nil => simp [entsFiles]
  | cons e as ih => simp [entsFiles, ih]

theorem entsFolderPaths_append (p : String) (a b : List RNode) :
    entsFolderPaths p (a ++ b) = entsFolderPaths p a ++ entsFolderPaths p b := by
  induction a with
  | nil => simp [entsFolderPaths]
  | cons e as ih => simp [entsFolderPaths, ih]

theorem pagesExtendLoop_ok (ps : List (Except String (List RNode))) :
    ∀ acc res, pagesExtendLoop acc ps = .ok res →
      res = acc ++ flattenOkPages ps ∧ pagesAllOk ps = true := by
  induction ps with
  | nil =>
      intro acc res h
      simp only [pagesExtendLoop] at h
      injection h with h
      subst h
      simp [flattenOkPages, pagesAllOk]
  | cons p ps ih =>
      intro acc res h
      cases p with
      | error e => simp [pagesExtendLoop] at h
      | ok es =>
          simp only [pagesExtendLoop] at h
          obtain ⟨h1, h2⟩ := ih (acc ++ es) res h
          subst h1
          simp [flattenOkPages, pagesAllOk, h2]

theorem listFolderAllPages_ok (ps : List (Except String (List RNode))) (res : List RNode)
    (h : listFolderAllPages ps = .ok res) :
    res = flattenOkPages ps ∧ pagesAllOk ps = true := by
  cases ps with
  | nil =>
      simp only [listFolderAllPages] at h
      injection h with h
      subst h
      simp [flattenOkPages, pagesAllOk]
  | cons first more =>
      cases first with
      | error e => simp [listFolderAllPages] at h
      | ok es =>
          simp only [listFolderAllPages] at h
          obtain ⟨h1, h2⟩ := pagesExtendLoop_ok more es res h
          subst h1
          simp [flattenOkPages, pagesAllOk, h2]

theorem pagesExtendLoop_allOk (ps : List (Except String (List RNode))) :
    ∀ acc, pagesAllOk ps = true →
      pagesExtendLoop acc ps = .ok (acc ++ flattenOkPages ps) := by
  induction ps with
  | nil => intro acc _; simp [pagesExtendLoop, flattenOkPages]
  | cons p ps ih =>
      intro acc h
      cases p with
      | error e => simp [pagesAllOk] at h
      | ok es =>
          simp only [pagesAllOk] at h
          simp only [pagesExtendLoop, flattenOkPages]
          rw [ih (acc ++ es) h]
          simp

theorem listFolderAllPages_allOk (ps : List (Except String (List RNode)))
    (h : pagesAllOk ps = true) :
    listFolderAllPages ps = .ok (flattenOkPages ps) := by
  cases ps with
  | nil => simp [listFolderAllPages, flattenOkPages]
  | cons first more =>
      cases first with
      | error e => simp [pagesAllOk] at h
      | ok es =>
          simp only [pagesAllOk] at h
          simp only [listFolderAllPages, flattenOkPages]
          exact pagesExtendLoop_allOk more es h

theorem entsSize_flattenOk (ps : List (Except String (List RNode))) :
    entsSize (flattenOkPages ps) = pagesSize ps := by
  induction ps with
  | nil => rfl
  | cons p ps ih =>
      cases p with
      | error e => simp [flattenOkPages, pagesSize, ih]
      | ok es => simp [flattenOkPages, pagesSize, entsSize_append, ih]

theorem pagesErrFree_allOk (ps : List (Except String (List RNode)))
    (h : pagesErrFree ps = true) : pagesAllOk ps = true := by
  induction ps with
  | nil => rfl
  | cons p ps ih =>
      cases p with
      | error e => simp [pagesErrFree] at h
      | ok es =>
          simp only [pagesErrFree, Bool.and_eq_true] at h
          simp [pagesAllOk, ih h.2]

theorem entsErrFree_flattenOk (ps : List (Except String (List RNode)))
    (h : pagesAllOk ps = true) :
    entsErrFree (flattenOkPages ps) = pagesErrFree ps := by
  induction ps with
  | nil => rfl
  | cons p ps ih =>
      cases p with
      | error e => simp [pagesAllOk] at h
      | ok es =>
          simp only [pagesAllOk] at h
          simp [flattenOkPages, pagesErrFree, entsErrFree_append, ih h]

theorem entsFiles_flattenOk (p : String) (ps : List (Except String (List RNode))) :
    entsFiles p (flattenOkPages ps) = pagesFiles p ps := by
  induction ps with
  | nil => rfl
  | cons pg ps ih =>
      cases pg with
      | error e => simp [flattenOkPages, pagesFiles, ih]
      | ok es => simp [flattenOkPages, pagesFiles, entsFiles_append, ih]

theorem entsFolderPaths_flattenOk (p : String) (ps : List (Except String (List RNode))) :
    entsFolderPaths p (flattenOkPages ps) = pagesFolderPaths p ps := by
  induction ps with
  | nil => rfl
  | cons pg ps ih =>
      cases pg with
      | error e => simp [flattenOkPages, pagesFolderPaths, ih]
      | ok es => simp [flattenOkPages, pagesFolderPaths, entsFolderPaths_append, ih]

theorem childFolders_size (p : String) (es : List RNode) :
    wlSize (childFolders p es) + (childFolders p es).length ≤ entsSize es := by
  induction es with
  | nil => simp [childFolders, wlSize, entsSize]
  | cons e es ih =>
      cases e with
      | file n h s =>
          simp only [childFolders, List.filterMap_cons] at ih ⊢
          simp only [entsSize, nodeSize]
          omega
      | folder n pgs =>
          simp only [childFolders, List.filterMap_cons] at ih ⊢
          simp only [entsSize, nodeSize, wlSize, List.length_cons]
          omega

theorem wlErrFree_childFolders (p : String) (es : List RNode) :
    wlErrFree (childFolders p es) = entsErrFree es := by
  induction es with
  | nil => rfl
  | cons e es ih =>
      cases e with
      | file n h s =>
          simp only [childFolders, List.filterMap_cons] at ih ⊢
          simp [entsErrFree, nodeErrFree, ih]
      | folder n pgs =>
          simp only [childFolders, List.filterMap_cons] at ih ⊢
          simp [entsErrFree, nodeErrFree, wlErrFree, ih]

theorem middle_swap {α : Type} (b c d : List α) :
    (b ++ (c ++ d)).Perm (c ++ (b ++ d)) := by
  rw [← List.append_assoc, ← List.append_assoc]
  exact (List.perm_append_comm).append_right d

theorem entsFiles_split (p : String) (es : List RNode) :
    (entsFiles p es).Perm
      (childFiles p es
        ++ (childFolders p es).flatMap (fun it => pagesFiles it.1 it.2)) := by
  induction es with
  | nil => simp [entsFiles, childFiles, childFolders]
  | cons e es ih =>
      cases e with
      | file n h s =>
          simp only [entsFiles, nodeFiles, childFiles, childFolders,
            List.filterMap_cons, List.singleton_append, List.cons_append]
          exact ih.cons _
      | folder n pgs =>
          simp only [entsFiles, nodeFiles, childFiles, childFolders,
            List.filterMap_cons, List.flatMap_cons]
          exact ((ih.append_left _).trans (middle_swap _ _ _))

theorem entsFolderPaths_split (p : String) (es : List RNode) :
    entsFolderPaths p es
      = (childFolders p es).flatMap (fun it => it.1 :: pagesFolderPaths it.1 it.2) := by
  induction es with
  | nil => rfl
  | cons e es ih =>
      cases e with
      | file n h s =>
          simp only [entsFolderPaths, nodeFolderPaths, childFolders, List.filterMap_cons]
          simpa using ih
      | folder n pgs =>
          simp only [entsFolderPaths, nodeFolderPaths, childFolders,
            List.filterMap_cons, List.flatMap_cons]
          simp [ih, childFolders]

theorem traverseGo_error (fuel : Nat) :
    ∀ wl acc vis calls, wlSize wl + wl.length ≤ fuel → wlErrFree wl = false →
      ∃ e, traverseGo fuel wl acc vis calls = .error e := by
  induction fuel with
  | zero =>
      intro wl acc vis calls hm he
      cases wl with
      | nil => simp [wlErrFree] at he
      | cons x xs => simp at hm
  | succ fuel ih =>
      intro wl acc vis calls hm he
      cases wl with
      | nil => simp [wlErrFree] at he
      | cons x xs =>
          simp only [traverseGo]
          have hsplit := List.dropLast_append_getLast (List.cons_ne_nil x xs)
          generalize hit : (x :: xs).getLast (List.cons_ne_nil x xs) = it at *
          have hsz : wlSize (x :: xs) = wlSize (x :: xs).dropLast + pagesSize it.2 := by
            conv_lhs => rw [← hsplit]
            rw [wlSize_append]
            simp [wlSize]
          have hlen : (x :: xs).length = (x :: xs).dropLast.length + 1 := by
            conv_lhs => rw [← hsplit]
            simp
          rw [← hsplit, wlErrFree_append] at he
          simp only [wlErrFree, Bool.and_true] at he
          cases hlf : listFolderAllPages it.2 with
          | error e => exact ⟨e, rfl⟩
          | ok entries =>
              obtain ⟨hflat, hallok⟩ := listFolderAllPages_ok _ _ hlf
              subst hflat
              apply ih
              · have h1 := childFolders_size it.1 (flattenOkPages it.2)
                have h2 := entsSize_flattenOk it.2
                rw [wlSize_append, List.length_append]
                rw [hsz, hlen] at hm
                omega
              · rw [wlErrFree_append, wlErrFree_childFolders,
                  entsErrFree_flattenOk it.2 hallok]
                exact he

theorem traverseGo_ok_perm (fuel : Nat) :
    ∀ wl acc vis calls, wlSize wl + wl.length ≤ fuel → wlErrFree wl = true →
      ∃ files visited calls2,
        traverseGo fuel wl acc vis calls = .ok (files, visited, calls2)
        ∧ files.Perm (acc ++ wl.flatMap (fun it => pagesFiles it.1 it.2))
        ∧ visited.Perm
            (vis ++ wl.flatMap (fun it => it.1 :: pagesFolderPaths it.1 it.2)) := by
  induction fuel with
  | zero =>
      intro wl acc vis calls hm he
      cases wl with
      | nil => exact ⟨acc, vis, calls, rfl, by simp, by simp⟩
      | cons x xs => simp at hm
  | succ fuel ih =>
      intro wl acc vis calls hm he
      cases wl with
      | nil => exact ⟨acc, vis, calls, rfl, by simp, by simp⟩
      | cons x xs =>
          simp only [traverseGo]
          have hsplit := List.dropLast_append_getLast (List.cons_ne_nil x xs)
          generalize hit : (x :: xs).getLast (List.cons_ne_nil x xs) = it at *
          have hsz : wlSize (x :: xs) = wlSize (x :: xs).dropLast + pagesSize it.2 := by
            conv_lhs => rw [← hsplit]
            rw [wlSize_append]
            simp [wlSize]
          have hlen : (x :: xs).length = (x :: xs).dropLast.length + 1 := by
            conv_lhs => rw [← hsplit]
            simp
          rw [← hsplit, wlErrFree_append] at he
          simp only [wlErrFree, Bool.and_true, Bool.and_eq_true] at he
          obtain ⟨hedl, hepages⟩ := he
          have hallok : pagesAllOk it.2 = true := pagesErrFree_allOk _ hepages
          cases hlf : listFolderAllPages it.2 with
          | error e =>
              have hok := listFolderAllPages_allOk it.2 hallok
              rw [hlf] at hok
              simp at hok
          | ok entries =>
              obtain ⟨hflat, _⟩ := listFolderAllPages_ok _ _ hlf
              subst hflat
              obtain ⟨files, visited, calls2, hrun, hpf, hpv⟩ :=
                ih ((x :: xs).dropLast ++ childFolders it.1 (flattenOkPages it.2))
                  (acc ++ childFiles it.1 (flattenOkPages it.2))
                  (vis ++ [it.1]) (calls + it.2.length)
                  (by
                    have h1 := childFolders_size it.1 (flattenOkPages it.2)
                    have h2 := entsSize_flattenOk it.2
                    rw [wlSize_append, List.length_append]
                    rw [hsz, hlen] at hm
                    omega)
                  (by
                    rw [wlErrFree_append, wlErrFree_childFolders,
                      entsErrFree_flattenOk it.2 hallok, hedl, hepages]
                    rfl)
              refine ⟨files, visited, calls2, hrun, ?_, ?_⟩
              · have hflatmap : (x :: xs).flatMap (fun it => pagesFiles it.1 it.2)
                    = ((x :: xs).dropLast).flatMap (fun it => pagesFiles it.1 it.2)
                      ++ pagesFiles it.1 it.2 := by
                  conv_lhs => rw [← hsplit]
                  rw [List.flatMap_append]
                  simp
                rw [hflatmap, ← entsFiles_flattenOk it.1 it.2]
                refine hpf.trans ?_
                rw [List.flatMap_append, List.append_assoc]
                refine List.Perm.append_left acc ?_
                refine (middle_swap _ _ _).trans ?_
                exact List.Perm.append_left _ (entsFiles_split it.1 (flattenOkPages it.2)).symm
              · have hflatmap : (x :: xs).flatMap
                      (fun it => it.1 :: pagesFolderPaths it.1 it.2)
                    = ((x :: xs).dropLast).flatMap
                        (fun it => it.1 :: pagesFolderPaths it.1 it.2)
                      ++ (it.1 :: pagesFolderPaths it.1 it.2) := by
                  conv_lhs => rw [← hsplit]
                  rw [List.flatMap_append]
                  simp
                have hCFG : (childFolders it.1 (flattenOkPages it.2)).flatMap
                      (fun it => it.1 :: pagesFolderPaths it.1 it.2)
                    = pagesFolderPaths it.1 it.2 := by
                  rw [← entsFolderPaths_split, entsFolderPaths_flattenOk]
                rw [hflatmap]
                refine hpv.trans ?_
                rw [List.flatMap_append, hCFG, List.append_assoc]
                refine List.Perm.append_left vis ?_
                have := middle_swap [it.1]
                    (((x :: xs).dropLast).flatMap
                      (fun it => it.1 :: pagesFolderPaths it.1 it.2))
                    (pagesFolderPaths it.1 it.2)
                simpa using this

/-- C3: for every failure-free remote tree (nested folders, multi-page
listings), the worklist traversal terminates (returns within the
`wlSize + 1` fuel bound, i.e. the worklist empties) and produces exactly
one manifest entry per remote file — a permutation of the declarative
file enumeration, which contains no entries for folders — and visits the
root and each folder's full child path exactly once. -/
theorem C3_traversal_complete (rootPages : List (Except String (List RNode)))
    (h : pagesErrFree rootPages = true) :
    ∃ files visited calls,
      traverseFiles rootPages = .ok (files, visited, calls)
      ∧ files.Perm (pagesFiles "" rootPages)
      ∧ visited.Perm ("" :: pagesFolderPaths "" rootPages) := by
  obtain ⟨files, visited, calls2, hrun, hpf, hpv⟩ :=
    traverseGo_ok_perm (wlSize [("", rootPages)] + 1) [("", rootPages)] [] [] 0
      (by simp [wlSize]) (by simp [wlErrFree, h])
  exact ⟨files, visited, calls2, hrun, by simpa using hpf, by simpa using hpv⟩

/-- C3 witness: a two-page root listing with a nested folder. -/
theorem C3_witness :
    ∃ files visited calls,
      traverseFiles
          [.ok [.folder "sub" [.ok [.file "b.txt" "H2" 20]], .file "a.txt" "H1" 10],
           .ok [.file "c.txt" "H3" 5]]
        = .ok (files, visited, calls)
      ∧ files.Perm (pagesFiles ""
          [.ok [.folder "sub" [.ok [.file "b.txt" "H2" 20]], .file "a.txt" "H1" 10],
           .ok [.file "c.txt" "H3" 5]])
      ∧ visited.Perm ("" :: pagesFolderPaths ""
          [.ok [.folder "sub" [.ok [.file "b.txt" "H2" 20]], .file "a.txt" "H1" 10],
           .ok [.file "c.txt" "H3" 5]]) :=
  C3_traversal_complete
    [.ok [.folder "sub" [.ok [.file "b.txt" "H2" 20]], .file "a.txt" "H1" 10],
     .ok [.file "c.txt" "H3" 5]] (by decide)

/-- C7: when the cache misses and some listing-page request in the tree
fails, `get_file_list_recursive` propagates the error, returns no
manifest, and leaves the cache filesystem exactly as it was — no partial
manifest is persisted. -/
theorem C7_listing_failure_no_persist (cfs : CacheFS) (link_root loc : String)
    (rootPages : List (Except String (List RNode)))
    (hmiss : cfs.lookup loc = none)
    (herr : pagesErrFree rootPages = false) :
    ∃ e, get_file_list_recursive cfs link_root (some loc) rootPages
      = (cfs, .error (.listingError e)) := by
  obtain ⟨e, he⟩ :=
    traverseGo_error (wlSize [("", rootPages)] + 1) [("", rootPages)] [] [] 0
      (by simp [wlSize]) (by simp [wlErrFree, herr])
  refine ⟨e, ?_⟩
  simp only [get_file_list_recursive, hmiss]
  unfold traverseFiles
  rw [he]

/-- C7 witness: a root whose single page request fails. -/
theorem C7_witness :
    ∃ e, get_file_list_recursive [] "L" (some "cache.json") [.error "rate limited"]
      = ([], .error (.listingError e)) :=
  C7_listing_failure_no_persist [] "L" "cache.json" [.error "rate limited"] rfl (by decide)

/-! ## Orchestrator tail (C10) -/

/-- C10: when the capped file list is empty, computing the total byte
count (`reduce(add, ...)` with no initial value) raises `TypeError`, so
the run aborts before `download_file_list` is invoked — an empty manifest
is not a successful no-op. -/
theorem C10_empty_list_total_bytes_raises (all_files : List ManifestEntry) (mx : Option Nat)
    (h : cappedFiles all_files mx = []) :
    mainAfterListing all_files mx
      = .error (.typeError "reduce() of empty iterable with no initial value") := by
  unfold mainAfterListing
  rw [h]
  rfl

theorem C10_witness :
    mainAfterListing [] none
      = .error (.typeError "reduce() of empty iterable with no initial value") :=
  C10_empty_list_total_bytes_raises [] none rfl

end DropboxDL
